import Mathlib

/-!
Verification of the transcript-analysis service core.

Shallow embedding of the repository's Go code:
* `src/analyzer/metrics.go` — `ComputeWER`, `ComputeCER`, `ComputeBLEU`,
  `levenshteinDistance`, `getNgrams`, the variadic `min` helper;
* `src/medsum-analytics/analyzer/analyzer.go` — `AnalyzeTranscripts`,
  `computeMetrics`, `extractJobFromPath`, `downloadFromS3WithBucket`;
* `src/medsum-analytics/subscriber/subscriber.go` — the legacy payload
  reconstruction branches of `processTranscriptionJob` / `processSummaryJob`;
* `src/unnamed/part_002` (`utils` package) — `DownloadS3Object`;
* `src/medsum-analytics/handlers/db_status.go` — `IngestCorrectionEvent`,
  modelled over an explicit relational-store state together with the
  process-wide observability counters.

Modelling conventions: Go `float64` results are idealised as exact `ℚ`
(for the rational-valued WER/CER computations) and `ℝ` (for BLEU, which
uses `exp`/`log`); Go strings are Lean `String`s, with rune sequences as
`List Char`.  Wall-clock timestamps, logging, and contexts carry no
information relevant to the claims and are omitted.
-/

/-- The whitespace predicate used by Go's `strings.Fields`
(`unicode.IsSpace`), restricted to its Latin-1 cases
`'\t' '\n' '\v' '\f' '\r' ' ' U+0085 U+00A0`; the higher Unicode space
classes play no role in any claim. -/
def isGoSpace (c : Char) : Bool :=
  c == '\t' || c == '\n' || c == '\x0b' || c == '\x0c' || c == '\r' ||
  c == ' ' || c == '\x85' || c == '\xa0'

/-- Accumulator-style splitter: `acc` holds the current word reversed. -/
def fieldsAux : List Char → List Char → List (List Char)
  | [], acc => if acc.isEmpty then [] else [acc.reverse]
  | c :: cs, acc =>
    if isGoSpace c then
      if acc.isEmpty then fieldsAux cs [] else acc.reverse :: fieldsAux cs []
    else fieldsAux cs (c :: acc)

/-- Embedding of Go `strings.Fields`: split a rune sequence around maximal
runs of whitespace, returning the (possibly empty) list of words. -/
def fields (s : List Char) : List (List Char) :=
  fieldsAux s []

/-- Embedding of the variadic `min` helper at `metrics.go:168-179`:
start from `min a b` and fold the remaining arguments. -/
def goMin (a b : Nat) (rest : List Nat) : Nat :=
  rest.foldl Nat.min (Nat.min a b)

/-- One row of the Levenshtein DP table (`metrics.go:132-145`): entry `j`
of row `i+1`, given the border value `matrix[i+1][0] = i+1`, the
substitution cost `cost j` of the pair `(s1[i], s2[j])`, and the previous
row `prev = matrix[i]`.  Entry `j+1` is the Go
`min(matrix[i][j+1]+1, matrix[i+1][j]+1, matrix[i][j]+cost)`. -/
def levMatrixRow (border : Nat) (cost : Nat → Nat) (prev : Nat → Nat) : Nat → Nat
  | 0 => border
  | j + 1 =>
    goMin (prev (j + 1) + 1)
          (levMatrixRow border cost prev j + 1)
          [prev j + cost j]

/-- Embedding of the `(len1+1)×(len2+1)` dynamic-programming table filled by
`levenshteinDistance` (`metrics.go:116-148`): `levMatrix s1 s2 i j` is the
entry `matrix[i][j]`.  Row 0 is the initialised border `matrix[0][j] = j`;
each later row only reads the row before it, so the fill loop is embedded
as row `i+1` defined from row `i`, with `cost = 0` iff `s1[i] = s2[j]`
(Go's `s1[i-1] != s2[j-1]` check for entry `(i, j)`, shifted by one here). -/
def levMatrix (s1 s2 : List (List Char)) : Nat → Nat → Nat
  | 0, j => j
  | i + 1, j =>
    levMatrixRow (i + 1) (fun j => if s1[i]? = s2[j]? then 0 else 1)
      (levMatrix s1 s2 i) j

/-- Embedding of `levenshteinDistance` (`metrics.go:116-148`): the
bottom-right entry of the filled table. -/
def levenshteinDistance (s1 s2 : List (List Char)) : Nat :=
  levMatrix s1 s2 s1.length s2.length

/-- Embedding of `ComputeWER` (`metrics.go:12-27`): whitespace-tokenize both
strings, take the word-level distance, and normalise by the reference word
count, with the two empty-reference special cases. -/
def computeWER (reference hypothesis : String) : ℚ :=
  let refWords := fields reference.toList
  let hypWords := fields hypothesis.toList
  let distance := levenshteinDistance refWords hypWords
  if refWords.length = 0 then
    if hypWords.length = 0 then 0 else 1
  else
    (distance : ℚ) / (refWords.length : ℚ)

/-- Embedding of `ComputeCER` (`metrics.go:32-56`): view both strings as
rune sequences, wrap each rune as a one-rune string (Go builds
`[]string{string(r), ...}`), take the distance, and normalise by the
reference rune count. -/
def computeCER (reference hypothesis : String) : ℚ :=
  let refStrings := reference.toList.map (fun r => [r])
  let hypStrings := hypothesis.toList.map (fun r => [r])
  let distance := levenshteinDistance refStrings hypStrings
  if reference.toList.length = 0 then
    if hypothesis.toList.length = 0 then 0 else 1
  else
    (distance : ℚ) / (reference.toList.length : ℚ)

/-- Embedding of `getNgrams` (`metrics.go:152-165`): the list of n-gram
occurrences of `words`, each occurrence rendered as the space-joined string
`strings.Join(words[i:i+n], " ")`.  Go stores them in a `map[string]int`
of counts; here the multiset of occurrences is kept as a list, whose
`count` gives the map's value and whose `dedup` gives the map's key set. -/
def getNgrams (words : List (List Char)) (n : Nat) : List (List Char) :=
  if n > words.length then []
  else (List.range (words.length - n + 1)).map
    (fun i => List.intercalate [' '] ((words.drop i).take n))

/-- The clipped n-gram precision computed inside the `for n := 1; n <= maxN`
loop of `ComputeBLEU` (`metrics.go:72-89`): 0 when the hypothesis n-gram map
is empty, else the matched count (summed over the map's keys, clipping each
hypothesis count by the reference count) divided by `len(hypNgrams)`, the
number of distinct hypothesis n-grams. -/
def precisionAt (refWords hypWords : List (List Char)) (n : Nat) : ℚ :=
  let refNgrams := getNgrams refWords n
  let hypNgrams := getNgrams hypWords n
  let keys := hypNgrams.dedup
  if keys.length = 0 then 0
  else
    let matched := (keys.map (fun g =>
      if refNgrams.count g > 0 then goMin (hypNgrams.count g) (refNgrams.count g) [] else 0)).sum
    (matched : ℚ) / (keys.length : ℚ)

/-- Embedding of `ComputeBLEU` (`metrics.go:60-110`): 0 for an empty
hypothesis; compute `precisions[0..3]` for n = 1..4; if any precision is 0
return 0 (the Go loop returns at the first zero — same value as this
membership test); otherwise brevity penalty times the geometric mean
`exp((Σ log pᵢ)/4)`. -/
noncomputable def computeBLEU (reference hypothesis : String) : ℝ :=
  let refWords := fields reference.toList
  let hypWords := fields hypothesis.toList
  if hypWords.length = 0 then 0
  else
    let precisions := (List.range 4).map (fun k => precisionAt refWords hypWords (k + 1))
    if 0 ∈ precisions then 0
    else
      let logSum := (precisions.map (fun p => Real.log (p : ℝ))).sum
      let geometricMean := Real.exp (logSum / 4)
      let bp : ℝ :=
        if hypWords.length < refWords.length then
          Real.exp (1 - (refWords.length : ℝ) / (hypWords.length : ℝ))
        else 1
      bp * geometricMean

/-- The clipped precision as claim C1 words it: the same clipped-match
numerator, but divided by the total number of hypothesis n-gram
occurrences counted with multiplicity, and 0 when the hypothesis has fewer
than `n` tokens.  Stated from the spec sentence, to be compared with the
code's `precisionAt`. -/
def claimPrecision (refWords hypWords : List (List Char)) (n : Nat) : ℚ :=
  if hypWords.length < n then 0
  else
    let refNgrams := getNgrams refWords n
    let hypNgrams := getNgrams hypWords n
    let matched := (hypNgrams.dedup.map (fun g =>
      Nat.min (hypNgrams.count g) (refNgrams.count g))).sum
    (matched : ℚ) / (hypNgrams.length : ℚ)

/-- The clipped precision that the code actually computes, written
independently of `precisionAt`: the clipped-match numerator over the number
of *distinct* hypothesis n-grams, and 0 when the hypothesis has fewer than
`n` tokens.  This is the amended form of claim C1. -/
def distinctClippedPrecision (refWords hypWords : List (List Char)) (n : Nat) : ℚ :=
  if hypWords.length < n then 0
  else
    let refNgrams := getNgrams refWords n
    let hypNgrams := getNgrams hypWords n
    ((hypNgrams.dedup.map (fun g =>
      Nat.min (hypNgrams.count g) (refNgrams.count g))).sum : ℚ) /
      (hypNgrams.dedup.length : ℚ)

/-- Unit substitution cost of a pair of symbols. -/
def subCost {α : Type} [DecidableEq α] (a b : α) : Nat :=
  if a = b then 0 else 1

/-- The textbook Levenshtein edit distance (glossary: minimum count of
insertions, deletions and substitutions transforming one sequence into the
other), by the standard first-element recursion.  This is the
specification-side meaning of "Levenshtein edit distance", to be compared
with the code's dynamic-programming table `levMatrix`. -/
def specLev {α : Type} [DecidableEq α] : List α → List α → Nat
  | [], ys => ys.length
  | _ :: xs, [] => xs.length + 1
  | x :: xs, y :: ys =>
    Nat.min (Nat.min (specLev xs (y :: ys) + 1) (specLev (x :: xs) ys + 1))
      (specLev xs ys + subCost x y)
  termination_by xs ys => xs.length + ys.length

/-- Embedding of `AnalysisResult` (`analyzer.go:14-20`); the `Timestamp`
field (wall-clock `time.Now().UTC()`) carries no claim-relevant
information and is omitted. -/
structure AnalysisResult where
  fileName : String
  wer : ℚ
  cer : ℚ
  bleu : ℝ

/-- Embedding of `computeMetrics` (`analyzer.go:111-125`): reject empty
reference or hypothesis text, otherwise compute the three metrics. -/
noncomputable def computeMetrics (reference hypothesis : String) :
    Except String AnalysisResult :=
  if reference = "" ∨ hypothesis = "" then
    Except.error "reference or hypothesis text is empty"
  else
    Except.ok { fileName := "", wer := computeWER reference hypothesis,
                cer := computeCER reference hypothesis,
                bleu := computeBLEU reference hypothesis }

/-- Embedding of `extractJobFromPath` (`analyzer.go:138-147`): split by
`/` and return the second-to-last part, or the whole path if there are
fewer than two parts. -/
def extractJobFromPath (path : String) : String :=
  let parts := path.splitOn "/"
  if parts.length ≥ 2 then (parts[parts.length - 2]?).getD path
  else path

/-- Embedding of `downloadFromS3WithBucket` (`analyzer.go:128-134`) over an
abstract object store `store bucket key : Option String` describing the
overall outcome of the (retried) fetch; the retry mechanics themselves are
embedded separately as `downloadS3Object`. -/
def downloadFromS3WithBucket (store : String → String → Option String)
    (bucket key : String) : Except String String :=
  match store bucket key with
  | some data => Except.ok data
  | none => Except.error "failed to download file from S3"

/-- Embedding of `AnalyzeTranscripts` (`analyzer.go:23-63`): download
`originalFilePath` as the reference, `transcribedFilePath` as the
hypothesis, compute the metrics, and stamp the job id extracted from
`transcribedFilePath`. -/
noncomputable def analyzeTranscripts (store : String → String → Option String)
    (bucket originalFilePath transcribedFilePath : String) :
    Except String AnalysisResult :=
  match downloadFromS3WithBucket store bucket originalFilePath with
  | Except.error e => Except.error e
  | Except.ok reference =>
    match downloadFromS3WithBucket store bucket transcribedFilePath with
    | Except.error e => Except.error e
    | Except.ok hypothesis =>
      match computeMetrics reference hypothesis with
      | Except.error e => Except.error e
      | Except.ok metrics =>
        Except.ok { metrics with fileName := extractJobFromPath transcribedFilePath }

/-- Embedding of `TranscribeCompletePayload` (`subscriber.go:25-30`). -/
structure TranscribeCompletePayload where
  job : String
  bucket : String
  transcribedFile : String
  correctedFile : String
  deriving DecidableEq

/-- Embedding of `SummaryCompletePayload` (`subscriber.go:33-38`). -/
structure SummaryCompletePayload where
  job : String
  bucket : String
  originalFile : String
  summaryFile : String
  deriving DecidableEq

/-- The analysis call made by `processTranscriptionJob`
(`subscriber.go:120`) once a payload is in hand:
`AnalyzeTranscripts(ctx, logger, payload.Bucket, payload.TranscribedFile,
payload.CorrectedFile)`.  The JSON decoding itself is not modelled. -/
noncomputable def processTranscriptionJobAnalyze
    (store : String → String → Option String)
    (payload : TranscribeCompletePayload) : Except String AnalysisResult :=
  analyzeTranscripts store payload.bucket payload.transcribedFile payload.correctedFile

/-- The payload built by decode tier (2) of `processTranscriptionJob`
(`subscriber.go:101-114`): raw message unquoted to a bare job id. -/
def transcriptionLegacyPayloadUnquoted (job : String) : TranscribeCompletePayload :=
  { job := job, bucket := "medsum-data",
    transcribedFile := job ++ "/" ++ job ++ "_transcribed.txt",
    correctedFile := job ++ "/" ++ job ++ "_corrected.txt" }

/-- The payload built by decode tier (3) of `processTranscriptionJob`
(`subscriber.go:88-100`): raw message taken as a bare job id directly. -/
def transcriptionLegacyPayloadPlain (job : String) : TranscribeCompletePayload :=
  { job := job, bucket := "medsum-data",
    transcribedFile := job ++ "/" ++ job ++ "_transcribed.txt",
    correctedFile := job ++ "/" ++ job ++ "_corrected.txt" }

/-- The payload built by decode tier (2) of `processSummaryJob`
(`subscriber.go:157-170`): raw message unquoted to a bare job id.  Note
the source builds `{job}/{job}_corrected.txt` as the summary file here. -/
def summaryLegacyPayloadUnquoted (job : String) : SummaryCompletePayload :=
  { job := job, bucket := "medsum-data",
    originalFile := job ++ "/" ++ job ++ "_original.txt",
    summaryFile := job ++ "/" ++ job ++ "_corrected.txt" }

/-- The payload built by decode tier (3) of `processSummaryJob`
(`subscriber.go:144-156`): raw message taken as a bare job id directly. -/
def summaryLegacyPayloadPlain (job : String) : SummaryCompletePayload :=
  { job := job, bucket := "medsum-data",
    originalFile := job ++ "/" ++ job ++ "_original.txt",
    summaryFile := job ++ "/" ++ job ++ "_summary.txt" }

deriving instance DecidableEq for Except

/-- Outcome of one loop iteration of `DownloadS3Object`
(`part_002:73-97`): the `GetObject` call fails, the body read
(`io.ReadAll`) fails, or the attempt yields the object's bytes. -/
inductive S3AttemptOutcome where
  | getError (e : String)
  | readError (e : String)
  | success (data : String)
  deriving DecidableEq

/-- The underlying error recorded in `lastErr` by a failing attempt,
`none` for a successful one. -/
def s3AttemptError : S3AttemptOutcome → Option String
  | S3AttemptOutcome.getError e => some e
  | S3AttemptOutcome.readError e => some e
  | S3AttemptOutcome.success _ => none

/-- The error returned after the loop of `DownloadS3Object`
(`part_002:99`): `fmt.Errorf("failed to download object after %d attempts:
%w", maxAttempts, lastErr)` — it records the attempt count and wraps the
last underlying error. -/
structure FetchFailure where
  attempts : Nat
  wrapped : Option String
  deriving DecidableEq

/-- The retry loop of `DownloadS3Object` (`part_002:73-99`), with
`remaining` counting the loop iterations still allowed (the Go guard
`attempt <= maxAttempts`).  Each failing attempt stores its error in
`lastErr` and, when `attempt < maxAttempts`, sleeps once before the next
attempt; the indices of the attempts followed by a sleep are accumulated
in `slept`.  When the budget is exhausted the wrapped last error is
returned. -/
def downloadS3ObjectAux (attemptOutcome : Nat → S3AttemptOutcome)
    (maxAttempts : Nat) :
    Nat → Nat → Option String → List Nat → Except FetchFailure String × List Nat
  | 0, _, lastErr, slept => (Except.error ⟨maxAttempts, lastErr⟩, slept)
  | remaining + 1, attempt, lastErr, slept =>
    match attemptOutcome attempt with
    | S3AttemptOutcome.success data => (Except.ok data, slept)
    | S3AttemptOutcome.getError e =>
      downloadS3ObjectAux attemptOutcome maxAttempts remaining (attempt + 1)
        (some e) (slept ++ if attempt < maxAttempts then [attempt] else [])
    | S3AttemptOutcome.readError e =>
      downloadS3ObjectAux attemptOutcome maxAttempts remaining (attempt + 1)
        (some e) (slept ++ if attempt < maxAttempts then [attempt] else [])

/-- Embedding of `DownloadS3Object` (`part_002:64-100`): run up to
`maxAttempts` attempts starting from attempt 1 with no recorded error and
no sleeps performed. -/
def downloadS3Object (attemptOutcome : Nat → S3AttemptOutcome)
    (maxAttempts : Nat) : Except FetchFailure String × List Nat :=
  downloadS3ObjectAux attemptOutcome maxAttempts maxAttempts 1 none []

/-- Embedding of `CorrectionExplanationInput` (`db_status.go:36-39`). -/
structure CorrectionExplanationInput where
  explanation : String
  explanationVersion : Int
  deriving DecidableEq

/-- Embedding of `WordCorrectionInput` (`db_status.go:41-46`); Go's
`*float64` confidence is idealised as `Option ℚ`. -/
structure WordCorrectionInput where
  before : String
  after : String
  position : Option Int
  confidence : Option ℚ
  deriving DecidableEq

/-- Embedding of `SentenceMovementInput` (`db_status.go:48-52`). -/
structure SentenceMovementInput where
  originalLocation : String
  newLocation : String
  transformation : String
  deriving DecidableEq

/-- Embedding of `CorrectionEventRequest` (`db_status.go:54-63`). -/
structure CorrectionEventRequest where
  jobId : String
  modelId : String
  promptId : String
  source : String
  version : Int
  explanations : List CorrectionExplanationInput
  words : List WordCorrectionInput
  sentences : List SentenceMovementInput
  deriving DecidableEq

/-- A row of the `correction_events` table. -/
structure EventRow where
  id : Nat
  jobId : String
  modelId : String
  promptId : String
  source : String
  version : Int
  deriving DecidableEq

/-- A row of the `correction_explanations` table. -/
structure ExplanationRow where
  eventId : Nat
  explanation : String
  explanationVersion : Int
  deriving DecidableEq

/-- A row of the `word_corrections` table. -/
structure WordRow where
  eventId : Nat
  before : String
  after : String
  position : Option Int
  confidence : Option ℚ
  deriving DecidableEq

/-- A row of the `sentence_movements` table. -/
structure SentenceRow where
  eventId : Nat
  originalLocation : String
  newLocation : String
  transformation : String
  deriving DecidableEq

/-- The relational store touched by `IngestCorrectionEvent`: the four
tables (rows kept in insertion order) and the serial-id source backing
`correction_events.id`. -/
structure DBState where
  events : List EventRow
  explanations : List ExplanationRow
  words : List WordRow
  sentences : List SentenceRow
  nextId : Nat
  deriving DecidableEq

/-- The process-wide observability counters of the `utils` package
(`CorrectionsIngestTotal`, `CorrectionsDedupEvents`,
`CorrectionsDedupWords`, `CorrectionsFailures`).  They live outside the
transaction: a rollback never restores them. -/
structure Counters where
  ingestTotal : Nat
  dedupEvents : Nat
  dedupWords : Nat
  failures : Nat
  deriving DecidableEq

/-- The low-level database operations issued by `IngestCorrectionEvent`
(`db_status.go:65-130`), in execution order; a failure oracle over these
steps models which operation returns a hard driver error. -/
inductive DbStep where
  | beginTx
  | insertEvent
  | selectId
  | insertExpl (k : Nat)
  | insertWord (k : Nat)
  | insertSent (k : Nat)
  | commitTx
  deriving DecidableEq

/-- The `WHERE prompt_id = $1` / `ON CONFLICT (prompt_id)` match used by
the event insert and the id resolution. -/
def eventPred (promptId : String) : EventRow → Bool :=
  fun r => decide (r.promptId = promptId)

/-- The `ON CONFLICT (event_id, before, after)` match of the word loop. -/
def wordPred (eventId : Nat) (w : WordCorrectionInput) : WordRow → Bool :=
  fun r => decide (r.eventId = eventId ∧ r.before = w.before ∧ r.after = w.after)

/-- The explanation loop (`db_status.go:90-99`): each row is inserted
unconditionally; on a hard error the loop stops (the caller rolls back).
No counter is touched on this path in the source. -/
def insertExplanationRows (fails : DbStep → Bool) (eventId : Nat) :
    List CorrectionExplanationInput → Nat → DBState → Except DbStep DBState
  | [], _, db => Except.ok db
  | e :: rest, k, db =>
    if fails (DbStep.insertExpl k) then Except.error (DbStep.insertExpl k)
    else insertExplanationRows fails eventId rest (k + 1)
      { db with explanations :=
          db.explanations ++ [⟨eventId, e.explanation, e.explanationVersion⟩] }

/-- The word loop (`db_status.go:100-114`): `ON CONFLICT (event_id,
before, after) DO NOTHING` — a duplicate triple is a no-op counted in
`dedupWords`; a hard error increments `failures` and stops the loop. -/
def insertWordRows (fails : DbStep → Bool) (eventId : Nat) :
    List WordCorrectionInput → Nat → DBState → Counters →
      Except DbStep DBState × Counters
  | [], _, db, c => (Except.ok db, c)
  | w :: rest, k, db, c =>
    if fails (DbStep.insertWord k) then
      (Except.error (DbStep.insertWord k), { c with failures := c.failures + 1 })
    else if db.words.any (wordPred eventId w) then
      insertWordRows fails eventId rest (k + 1) db
        { c with dedupWords := c.dedupWords + 1 }
    else
      insertWordRows fails eventId rest (k + 1)
        { db with words := db.words ++ [⟨eventId, w.before, w.after, w.position, w.confidence⟩] } c

/-- The sentence loop (`db_status.go:115-125`): each row is inserted
unconditionally; a hard error increments `failures` and stops the loop. -/
def insertSentenceRows (fails : DbStep → Bool) (eventId : Nat) :
    List SentenceMovementInput → Nat → DBState → Counters →
      Except DbStep DBState × Counters
  | [], _, db, c => (Except.ok db, c)
  | s :: rest, k, db, c =>
    if fails (DbStep.insertSent k) then
      (Except.error (DbStep.insertSent k), { c with failures := c.failures + 1 })
    else insertSentenceRows fails eventId rest (k + 1)
      { db with sentences :=
          db.sentences ++ [⟨eventId, s.originalLocation, s.newLocation, s.transformation⟩] } c

/-- Steps 3-7 of `IngestCorrectionEvent` (`db_status.go:90-129`), run
after the event id has been resolved to `eventId`: the three child-row
loops over the transaction-local store `txDb`, then the commit.  `db` is
the caller-visible store restored on every rollback path. -/
def ingestChildRows (fails : DbStep → Bool) (req : CorrectionEventRequest)
    (db txDb : DBState) (eventId : Nat) (c1 : Counters) :
    Except DbStep Nat × DBState × Counters :=
  match insertExplanationRows fails eventId req.explanations 0 txDb with
  | Except.error s => (Except.error s, db, c1)
  | Except.ok txDb2 =>
    match insertWordRows fails eventId req.words 0 txDb2 c1 with
    | (Except.error s, c2) => (Except.error s, db, c2)
    | (Except.ok txDb3, c2) =>
      match insertSentenceRows fails eventId req.sentences 0 txDb3 c2 with
      | (Except.error s, c3) => (Except.error s, db, c3)
      | (Except.ok txDb4, c3) =>
        if fails DbStep.commitTx then (Except.error DbStep.commitTx, db, c3)
        else (Except.ok eventId, txDb4, c3)

/-- Embedding of `IngestCorrectionEvent` (`db_status.go:65-130`) as a
state transformer over the store and the process-wide counters, driven by
a failure oracle.  Mirrors the source step by step:
begin (`:66-69`, no counter on failure); event insert with
`ON CONFLICT (prompt_id) DO NOTHING` (`:70-84`, `failures` on error,
`dedupEvents` on no-op, `ingestTotal` on fresh insert); id resolution by
prompt id (`:85-89`, no counter on failure); then the child-row loops and
the commit via `ingestChildRows`.  Every error path returns the
caller-visible store unchanged (rollback; counters are global and keep
their increments), while a successful commit publishes the
transaction-local store. -/
def ingestCorrectionEvent (fails : DbStep → Bool) (req : CorrectionEventRequest)
    (db : DBState) (c : Counters) : Except DbStep Nat × DBState × Counters :=
  if fails DbStep.beginTx then (Except.error DbStep.beginTx, db, c)
  else if fails DbStep.insertEvent then
    (Except.error DbStep.insertEvent, db, { c with failures := c.failures + 1 })
  else
    let hit := db.events.any (eventPred req.promptId)
    let txDb := if hit then db
      else { db with
        events := db.events ++
          [⟨db.nextId, req.jobId, req.modelId, req.promptId, req.source, req.version⟩],
        nextId := db.nextId + 1 }
    let c1 := if hit then { c with dedupEvents := c.dedupEvents + 1 }
      else { c with ingestTotal := c.ingestTotal + 1 }
    if fails DbStep.selectId then (Except.error DbStep.selectId, db, c1)
    else
      match txDb.events.find? (eventPred req.promptId) with
      | none => (Except.error DbStep.selectId, db, c1)
      | some row => ingestChildRows fails req db txDb row.id c1

/-- Failure oracle under which no database operation fails. -/
def noDbFailure : DbStep → Bool := fun _ => false

/-- Failure oracle under which only `BeginTx` fails. -/
def failsBeginTxOnly : DbStep → Bool := fun s => decide (s = DbStep.beginTx)

/-- Failure oracle under which only the commit fails. -/
def failsCommitOnly : DbStep → Bool := fun s => decide (s = DbStep.commitTx)

/-- A concrete correction-event request used as a test input. -/
def sampleRequest : CorrectionEventRequest :=
  { jobId := "job1", modelId := "m1", promptId := "p1", source := "ui", version := 1,
    explanations := [⟨"fixed a typo", 1⟩],
    words := [⟨"teh", "the", some 3, none⟩],
    sentences := [⟨"s1", "s2", "moved"⟩] }

/-- The empty relational store. -/
def emptyDB : DBState := ⟨[], [], [], [], 1⟩

/-- All counters at zero. -/
def zeroCounters : Counters := ⟨0, 0, 0, 0⟩

/-- The object store used as the failing input for claim C2: the
machine-transcribed file holds `"a b c d"`, the human-corrected file holds
`"a b c"`. -/
def sampleStore : String → String → Option String := fun bucket key =>
  if bucket = "medsum-data" ∧ key = "job1/job1_transcribed.txt" then some "a b c d"
  else if bucket = "medsum-data" ∧ key = "job1/job1_corrected.txt" then some "a b c"
  else none

/-- The structured transcription payload used as the failing input for
claim C2. -/
def samplePayload : TranscribeCompletePayload :=
  { job := "job1", bucket := "medsum-data",
    transcribedFile := "job1/job1_transcribed.txt",
    correctedFile := "job1/job1_corrected.txt" }

/-- Attempt outcomes where attempts 1 and 2 fail and attempt 3 succeeds. -/
def sampleAttemptsRecover : Nat → S3AttemptOutcome := fun n =>
  if n = 1 then S3AttemptOutcome.getError "e1"
  else if n = 2 then S3AttemptOutcome.readError "e2"
  else S3AttemptOutcome.success "payload"

/-- Attempt outcomes where every attempt fails. -/
def sampleAttemptsAllFail : Nat → S3AttemptOutcome := fun n =>
  if n = 1 then S3AttemptOutcome.getError "e1"
  else if n = 2 then S3AttemptOutcome.readError "e2"
  else S3AttemptOutcome.getError "e3"

/-! ### Levenshtein: the DP table computes the textbook edit distance -/

theorem specLev_nil_left {α : Type} [DecidableEq α] (ys : List α) :
    specLev ([] : List α) ys = ys.length := by
  simp [specLev]

theorem specLev_nil_right {α : Type} [DecidableEq α] (xs : List α) :
    specLev xs ([] : List α) = xs.length := by
  cases xs <;> simp [specLev]

theorem specLev_cons_cons {α : Type} [DecidableEq α] (x y : α) (xs ys : List α) :
    specLev (x :: xs) (y :: ys) =
      Nat.min (Nat.min (specLev xs (y :: ys) + 1) (specLev (x :: xs) ys + 1))
        (specLev xs ys + subCost x y) := by
  simp [specLev]

/-- The last-element recurrence for the textbook distance: appending one
symbol to each sequence satisfies the same three-way minimum as the
first-element definition.  This is the bridge between the DP table (which
consumes prefixes from the right end) and `specLev`. -/
theorem specLev_concat_concat {α : Type} [DecidableEq α] (x y : α) :
    ∀ (n : Nat) (xs ys : List α), xs.length + ys.length ≤ n →
      specLev (xs ++ [x]) (ys ++ [y]) =
        Nat.min (Nat.min (specLev xs (ys ++ [y]) + 1) (specLev (xs ++ [x]) ys + 1))
          (specLev xs ys + subCost x y) := by
  intro n
  induction n with
  | zero =>
    intro xs ys h
    have hx : xs = [] := by cases xs <;> simp_all
    have hy : ys = [] := by cases ys <;> simp_all
    subst hx; subst hy
    simp only [List.nil_append]
    exact specLev_cons_cons x y [] []
  | succ n ih =>
    intro xs ys h
    match xs, ys with
    | [], [] =>
      simp only [List.nil_append]
      exact specLev_cons_cons x y [] []
    | [], b :: bs =>
      have e1 := ih [] bs (by simp at h ⊢; omega)
      simp only [List.nil_append, List.cons_append] at e1 ⊢
      rw [specLev_cons_cons x b [] (bs ++ [y]), e1,
        specLev_cons_cons x b [] bs]
      simp only [specLev_nil_left, List.length_append, List.length_cons,
        List.length_nil]
      simp only [← min_add_add_right]
      apply Nat.le_antisymm <;> simp only [le_min_iff, min_le_iff] <;> omega
    | a :: as, [] =>
      have e1 := ih as [] (by simp at h ⊢; omega)
      simp only [List.nil_append, List.cons_append] at e1 ⊢
      rw [specLev_cons_cons a y (as ++ [x]) [], e1,
        specLev_cons_cons a y as []]
      simp only [specLev_nil_right, specLev_nil_left, List.length_append,
        List.length_cons, List.length_nil]
      simp only [← min_add_add_right]
      apply Nat.le_antisymm <;> simp only [le_min_iff, min_le_iff] <;> omega
    | a :: as, b :: bs =>
      have e1 := ih as (b :: bs) (by simp at h ⊢; omega)
      have e2 := ih (a :: as) bs (by simp at h ⊢; omega)
      have e3 := ih as bs (by simp at h ⊢; omega)
      simp only [List.cons_append] at e1 e2 e3 ⊢
      rw [specLev_cons_cons a b (as ++ [x]) (bs ++ [y]), e1, e2, e3,
        specLev_cons_cons a b as (bs ++ [y]),
        specLev_cons_cons a b (as ++ [x]) bs,
        specLev_cons_cons a b as bs]
      simp only [← min_add_add_right]
      apply Nat.le_antisymm <;> simp only [le_min_iff, min_le_iff] <;> omega

/-- The textbook distance is invariant under reversing both sequences. -/
theorem specLev_reverse_reverse {α : Type} [DecidableEq α] :
    ∀ (n : Nat) (xs ys : List α), xs.length + ys.length ≤ n →
      specLev xs.reverse ys.reverse = specLev xs ys := by
  intro n
  induction n with
  | zero =>
    intro xs ys h
    have hx : xs = [] := by cases xs <;> simp_all
    have hy : ys = [] := by cases ys <;> simp_all
    subst hx; subst hy; rfl
  | succ n ih =>
    intro xs ys h
    match xs, ys with
    | [], ys => simp [specLev_nil_left]
    | a :: as, [] => simp [specLev_nil_right]
    | a :: as, b :: bs =>
      have e1 := ih as (b :: bs) (by simp at h ⊢; omega)
      have e2 := ih (a :: as) bs (by simp at h ⊢; omega)
      have e3 := ih as bs (by simp at h ⊢; omega)
      rw [List.reverse_cons, List.reverse_cons,
        specLev_concat_concat a b (as.reverse.length + bs.reverse.length)
          as.reverse bs.reverse (by simp),
        ← List.reverse_cons b bs, ← List.reverse_cons a as,
        e1, e2, e3, specLev_cons_cons a b as bs]

theorem goMin_one (a b c : Nat) : goMin a b [c] = Nat.min (Nat.min a b) c := rfl

theorem levMatrix_zero_left (s1 s2 : List (List Char)) (j : Nat) :
    levMatrix s1 s2 0 j = j := rfl

theorem levMatrix_succ_zero (s1 s2 : List (List Char)) (i : Nat) :
    levMatrix s1 s2 (i + 1) 0 = i + 1 := rfl

theorem levMatrix_succ_succ (s1 s2 : List (List Char)) (i j : Nat) :
    levMatrix s1 s2 (i + 1) (j + 1) =
      Nat.min (Nat.min (levMatrix s1 s2 i (j + 1) + 1) (levMatrix s1 s2 (i + 1) j + 1))
        (levMatrix s1 s2 i j + if s1[i]? = s2[j]? then 0 else 1) := rfl

theorem take_succ_concat {α : Type} (l : List α) :
    ∀ i, (h : i < l.length) → l.take (i + 1) = l.take i ++ [l[i]] := by
  induction l with
  | nil => intro i h; simp at h
  | cons a t iht =>
    intro i h
    cases i with
    | zero => simp
    | succ i =>
      simp only [List.take_succ_cons, List.getElem_cons_succ]
      rw [iht i (by simpa using h), List.cons_append]

/-- Every in-range entry of the Go DP table is the textbook distance of
the corresponding (reversed) prefixes. -/
theorem levMatrix_eq_specLev (s1 s2 : List (List Char)) :
    ∀ i j, i ≤ s1.length → j ≤ s2.length →
      levMatrix s1 s2 i j = specLev (s1.take i).reverse (s2.take j).reverse := by
  intro i
  induction i with
  | zero =>
    intro j _ hj
    rw [levMatrix_zero_left, List.take_zero, List.reverse_nil, specLev_nil_left]
    simp [Nat.min_eq_left hj]
  | succ i ihi =>
    intro j hi
    induction j with
    | zero =>
      intro _
      rw [levMatrix_succ_zero, List.take_zero, List.reverse_nil, specLev_nil_right]
      simp [Nat.min_eq_left hi]
    | succ j ihj =>
      intro hj
      have hi' : i < s1.length := by omega
      have hj' : j < s2.length := by omega
      have t1 : (s2.take (j + 1)).reverse = s2[j] :: (s2.take j).reverse := by
        rw [take_succ_concat s2 j hj']; simp
      have t2 : (s1.take (i + 1)).reverse = s1[i] :: (s1.take i).reverse := by
        rw [take_succ_concat s1 i hi']; simp
      rw [levMatrix_succ_succ, t2, t1, specLev_cons_cons, ← t1, ← t2,
        ← ihi (j + 1) (Nat.le_of_lt hi') hj,
        ← ihi j (Nat.le_of_lt hi') (Nat.le_of_lt hj'),
        ← ihj (Nat.le_of_lt hj'),
        List.getElem?_eq_getElem hi', List.getElem?_eq_getElem hj']
      simp [subCost]

/-- The Go DP computation agrees with the textbook Levenshtein distance. -/
theorem levenshteinDistance_eq_specLev (s1 s2 : List (List Char)) :
    levenshteinDistance s1 s2 = specLev s1 s2 := by
  unfold levenshteinDistance
  rw [levMatrix_eq_specLev s1 s2 s1.length s2.length le_rfl le_rfl,
    List.take_length, List.take_length]
  exact specLev_reverse_reverse (s1.length + s2.length) s1 s2 le_rfl

/-- Claim C5: `ComputeWER` tokenizes both arguments by whitespace and
returns the word-level Levenshtein edit distance (unit
insertion/deletion/substitution cost) divided by the number of reference
words, with the edge cases both-empty ↦ 0 and
empty-reference/non-empty-hypothesis ↦ 1; and the four concrete spec
values `WER("a b c","a b c") = 0`, `WER("","") = 0`, `WER("","a") = 1`,
`WER("a b c","a b") = 1/3` all hold. -/
theorem c5_wer_is_levenshtein :
    (∀ reference hypothesis : String,
      computeWER reference hypothesis =
        if (fields reference.toList).length = 0 then
          if (fields hypothesis.toList).length = 0 then (0 : ℚ) else 1
        else
          (specLev (fields reference.toList) (fields hypothesis.toList) : ℚ) /
            ((fields reference.toList).length : ℚ)) ∧
    computeWER "a b c" "a b c" = 0 ∧
    computeWER "" "" = 0 ∧
    computeWER "" "a" = 1 ∧
    computeWER "a b c" "a b" = 1/3 := by
  refine ⟨fun reference hypothesis => ?_, ?_, ?_, ?_, ?_⟩
  · simp only [computeWER, levenshteinDistance_eq_specLev]
  · have h1 : levenshteinDistance (fields "a b c".toList) (fields "a b c".toList) = 0 := by
      decide
    have h2 : (fields "a b c".toList).length = 3 := by decide
    simp only [computeWER, h1, h2]
    norm_num
  · simp only [computeWER]
    norm_num [show fields ([] : List Char) = [] from rfl]
  · simp only [computeWER]
    norm_num [show fields ([] : List Char) = [] from rfl,
      show fields ['a'] = [['a']] from rfl]
  · have h1 : levenshteinDistance (fields "a b c".toList) (fields "a b".toList) = 1 := by
      decide
    have h2 : (fields "a b c".toList).length = 3 := by decide
    simp only [computeWER, h1, h2]
    norm_num

/-! ### BLEU precision: the code divides by the number of distinct n-grams -/

theorem getNgrams_eq_nil_iff (words : List (List Char)) (n : Nat) :
    getNgrams words n = [] ↔ words.length < n := by
  unfold getNgrams
  split
  · simp; omega
  · simp only [List.map_eq_nil_iff, List.range_eq_nil]
    omega

/-- The precision the code computes, rewritten with an unconditional
`min` clip and the fewer-than-`n`-tokens guard of the spec sentence. -/
theorem precisionAt_eq_distinctClippedPrecision
    (refWords hypWords : List (List Char)) (n : Nat) :
    precisionAt refWords hypWords n = distinctClippedPrecision refWords hypWords n := by
  unfold precisionAt distinctClippedPrecision
  have hcond : (getNgrams hypWords n).dedup.length = 0 ↔ hypWords.length < n := by
    rw [List.length_eq_zero, List.dedup_eq_nil, getNgrams_eq_nil_iff]
  have hfun : ∀ g : List Char,
      (if (getNgrams refWords n).count g > 0 then
        goMin ((getNgrams hypWords n).count g) ((getNgrams refWords n).count g) [] else 0) =
      Nat.min ((getNgrams hypWords n).count g) ((getNgrams refWords n).count g) := by
    intro g
    by_cases h : (getNgrams refWords n).count g > 0
    · simp [h, goMin]
    · have h0 : (getNgrams refWords n).count g = 0 := by omega
      simp [h, h0, goMin]
  by_cases h : hypWords.length < n
  · rw [if_pos (hcond.mpr h), if_pos h]
  · rw [if_neg (fun hc => h (hcond.mp hc)), if_neg h]
    simp only [hfun]

/-- Counterexample to claim C1: for reference `"a"`, hypothesis `"a a"`
and n = 1, the precision the code uses is `min(2,1)/1 = 1` (denominator:
one distinct unigram), not the claimed `min(2,1)/2 = 1/2` (denominator:
two unigram occurrences). -/
theorem c1_counterexample :
    precisionAt (fields "a".toList) (fields "a a".toList) 1 ≠
      claimPrecision (fields "a".toList) (fields "a a".toList) 1 := by
  have e1 : precisionAt (fields "a".toList) (fields "a a".toList) 1 = 1 := by
    rw [precisionAt_eq_distinctClippedPrecision]
    simp only [distinctClippedPrecision]
    rw [if_neg (by decide),
      show ((getNgrams (fields "a a".toList) 1).dedup.map (fun g =>
        Nat.min ((getNgrams (fields "a a".toList) 1).count g)
          ((getNgrams (fields "a".toList) 1).count g))).sum = 1 from by decide,
      show (getNgrams (fields "a a".toList) 1).dedup.length = 1 from by decide]
    norm_num
  have e2 : claimPrecision (fields "a".toList) (fields "a a".toList) 1 = 1/2 := by
    simp only [claimPrecision]
    rw [if_neg (by decide),
      show ((getNgrams (fields "a a".toList) 1).dedup.map (fun g =>
        Nat.min ((getNgrams (fields "a a".toList) 1).count g)
          ((getNgrams (fields "a".toList) 1).count g))).sum = 1 from by decide,
      show (getNgrams (fields "a a".toList) 1).length = 2 from by decide]
    norm_num
  rw [e1, e2]
  norm_num

/-- Claim C1 as amended: for every reference and hypothesis string and
each n in 1..4, the clipped n-gram precision used by `ComputeBLEU` equals
the sum over distinct hypothesis n-grams of min(count in hypothesis,
count in reference) divided by the number of *distinct* hypothesis
n-grams, and equals 0 when the hypothesis has fewer than n tokens. -/
theorem c1_amended (reference hypothesis : String) (n : Nat)
    (h1 : 1 ≤ n) (h2 : n ≤ 4) :
    precisionAt (fields reference.toList) (fields hypothesis.toList) n =
      distinctClippedPrecision (fields reference.toList) (fields hypothesis.toList) n :=
  precisionAt_eq_distinctClippedPrecision _ _ n

/-- Witness for the amended claim C1 at reference `"a"`, hypothesis
`"a a"`, n = 1. -/
theorem c1_witness :
    1 ≤ 1 ∧ 1 ≤ 4 ∧
    precisionAt (fields "a".toList) (fields "a a".toList) 1 =
      distinctClippedPrecision (fields "a".toList) (fields "a a".toList) 1 :=
  ⟨Nat.le_refl 1, by omega, c1_amended "a" "a a" 1 (Nat.le_refl 1) (by omega)⟩


/-! ### BLEU values: short identical sentences score 0, repeats can exceed 1 -/

/-- Evaluating `ComputeBLEU` on the identical three-word sentences: the hypothesis has
fewer than 4 tokens, so the 4-gram precision is 0 and the unsmoothed score
is 0. -/
theorem computeBLEU_thecatsat : computeBLEU "the cat sat" "the cat sat" = 0 := by
  have h4 : precisionAt (fields ['t', 'h', 'e', ' ', 'c', 'a', 't', ' ', 's', 'a', 't'])
      (fields ['t', 'h', 'e', ' ', 'c', 'a', 't', ' ', 's', 'a', 't']) 4 = 0 := by
    simp only [precisionAt]
    rw [if_pos (by decide)]
  have hmem : (0 : ℚ) ∈ (List.range 4).map (fun k =>
      precisionAt (fields "the cat sat".toList) (fields "the cat sat".toList) (k + 1)) := by
    rw [show List.range 4 = [0, 1, 2, 3] from by decide]
    simp [h4]
  simp only [computeBLEU]
  rw [if_neg (by decide), if_pos hmem]

/-- Counterexample to claim C4: `ComputeBLEU("the cat sat","the cat sat")`
is 0, not the claimed 1.0. -/
theorem c4_counterexample : computeBLEU "the cat sat" "the cat sat" ≠ 1 := by
  rw [computeBLEU_thecatsat]
  norm_num

/-- Claim C4 as amended: `ComputeBLEU` applied to the reference
`"the cat sat"` and the identical hypothesis returns 0.0, because the
hypothesis has fewer than 4 tokens, its 4-gram precision is 0, and the
unsmoothed geometric mean sends the whole score to 0. -/
theorem c4_amended : computeBLEU "the cat sat" "the cat sat" = 0 :=
  computeBLEU_thecatsat

/-- Counterexample to claim C3's upper bound: on the repeated-word pair
reference = hypothesis = `"a a a a a"` the four clipped precisions are
5, 4, 3, 2 (the map-size denominator is 1 distinct n-gram each time), so
the score `exp((log 5 + log 4 + log 3 + log 2)/4) ≈ 3.31` exceeds 1. -/
theorem c3_counterexample : 1 < computeBLEU "a a a a a" "a a a a a" := by
  have p1 : precisionAt (fields ['a', ' ', 'a', ' ', 'a', ' ', 'a', ' ', 'a']) (fields ['a', ' ', 'a', ' ', 'a', ' ', 'a', ' ', 'a']) 1 = 5 := by
    simp only [precisionAt]
    rw [if_neg (by decide),
      show (((getNgrams (fields ['a', ' ', 'a', ' ', 'a', ' ', 'a', ' ', 'a']) 1).dedup).map (fun g =>
        if (getNgrams (fields ['a', ' ', 'a', ' ', 'a', ' ', 'a', ' ', 'a']) 1).count g > 0 then
          goMin ((getNgrams (fields ['a', ' ', 'a', ' ', 'a', ' ', 'a', ' ', 'a']) 1).count g)
            ((getNgrams (fields ['a', ' ', 'a', ' ', 'a', ' ', 'a', ' ', 'a']) 1).count g) []
        else 0)).sum = 5 from by decide,
      show ((getNgrams (fields ['a', ' ', 'a', ' ', 'a', ' ', 'a', ' ', 'a']) 1).dedup).length = 1 from by decide]
    norm_num
  have p2 : precisionAt (fields ['a', ' ', 'a', ' ', 'a', ' ', 'a', ' ', 'a']) (fields ['a', ' ', 'a', ' ', 'a', ' ', 'a', ' ', 'a']) 2 = 4 := by
    simp only [precisionAt]
    rw [if_neg (by decide),
      show (((getNgrams (fields ['a', ' ', 'a', ' ', 'a', ' ', 'a', ' ', 'a']) 2).dedup).map (fun g =>
        if (getNgrams (fields ['a', ' ', 'a', ' ', 'a', ' ', 'a', ' ', 'a']) 2).count g > 0 then
          goMin ((getNgrams (fields ['a', ' ', 'a', ' ', 'a', ' ', 'a', ' ', 'a']) 2).count g)
            ((getNgrams (fields ['a', ' ', 'a', ' ', 'a', ' ', 'a', ' ', 'a']) 2).count g) []
        else 0)).sum = 4 from by decide,
      show ((getNgrams (fields ['a', ' ', 'a', ' ', 'a', ' ', 'a', ' ', 'a']) 2).dedup).length = 1 from by decide]
    norm_num
  have p3 : precisionAt (fields ['a', ' ', 'a', ' ', 'a', ' ', 'a', ' ', 'a']) (fields ['a', ' ', 'a', ' ', 'a', ' ', 'a', ' ', 'a']) 3 = 3 := by
    simp only [precisionAt]
    rw [if_neg (by decide),
      show (((getNgrams (fields ['a', ' ', 'a', ' ', 'a', ' ', 'a', ' ', 'a']) 3).dedup).map (fun g =>
        if (getNgrams (fields ['a', ' ', 'a', ' ', 'a', ' ', 'a', ' ', 'a']) 3).count g > 0 then
          goMin ((getNgrams (fields ['a', ' ', 'a', ' ', 'a', ' ', 'a', ' ', 'a']) 3).count g)
            ((getNgrams (fields ['a', ' ', 'a', ' ', 'a', ' ', 'a', ' ', 'a']) 3).count g) []
        else 0)).sum = 3 from by decide,
      show ((getNgrams (fields ['a', ' ', 'a', ' ', 'a', ' ', 'a', ' ', 'a']) 3).dedup).length = 1 from by decide]
    norm_num
  have p4 : precisionAt (fields ['a', ' ', 'a', ' ', 'a', ' ', 'a', ' ', 'a']) (fields ['a', ' ', 'a', ' ', 'a', ' ', 'a', ' ', 'a']) 4 = 2 := by
    simp only [precisionAt]
    rw [if_neg (by decide),
      show (((getNgrams (fields ['a', ' ', 'a', ' ', 'a', ' ', 'a', ' ', 'a']) 4).dedup).map (fun g =>
        if (getNgrams (fields ['a', ' ', 'a', ' ', 'a', ' ', 'a', ' ', 'a']) 4).count g > 0 then
          goMin ((getNgrams (fields ['a', ' ', 'a', ' ', 'a', ' ', 'a', ' ', 'a']) 4).count g)
            ((getNgrams (fields ['a', ' ', 'a', ' ', 'a', ' ', 'a', ' ', 'a']) 4).count g) []
        else 0)).sum = 2 from by decide,
      show ((getNgrams (fields ['a', ' ', 'a', ' ', 'a', ' ', 'a', ' ', 'a']) 4).dedup).length = 1 from by decide]
    norm_num
  have l2 : 0 < Real.log 2 := Real.log_pos (by norm_num)
  have l3 : 0 < Real.log 3 := Real.log_pos (by norm_num)
  have l4 : 0 < Real.log 4 := Real.log_pos (by norm_num)
  have l5 : 0 < Real.log 5 := Real.log_pos (by norm_num)
  simp only [computeBLEU]
  rw [if_neg (by decide), show List.range 4 = [0, 1, 2, 3] from by decide]
  norm_num [p1, p2, p3, p4]
  linarith [l2, l3, l4, l5]

/-- Claim C3 as amended: `ComputeWER` and `ComputeCER` are nonnegative for
every pair of strings, and `ComputeBLEU` is nonnegative (but not bounded
by 1: see the counterexample). -/
theorem c3_amended (reference hypothesis : String) :
    0 ≤ computeWER reference hypothesis ∧ 0 ≤ computeCER reference hypothesis ∧
      0 ≤ computeBLEU reference hypothesis := by
  refine ⟨?_, ?_, ?_⟩
  · simp only [computeWER]
    split
    · split <;> norm_num
    · positivity
  · simp only [computeCER]
    split
    · split <;> norm_num
    · positivity
  · simp only [computeBLEU]
    split
    · exact le_rfl
    · split
      · exact le_rfl
      · refine mul_nonneg ?_ (Real.exp_pos _).le
        split
        · exact (Real.exp_pos _).le
        · norm_num

/-! ### Pipeline argument order, legacy decode paths, and retry behaviour -/

/-- Claim C2 fails on the code: `processTranscriptionJob` passes
`payload.TranscribedFile` as `AnalyzeTranscripts`' reference
(`originalFilePath`) argument and `payload.CorrectedFile` as its
hypothesis (`transcribedFilePath`) argument, so the metrics are computed
with the machine transcript as the reference.  With machine text
`"a b c d"` and human-corrected text `"a b c"` the stored WER is
`WER("a b c d","a b c") = 1/4`, while the claimed orientation gives
`WER("a b c","a b c d") = 1/3`. -/
theorem c2_bug :
    (processTranscriptionJobAnalyze sampleStore samplePayload).map AnalysisResult.wer =
      Except.ok (computeWER "a b c d" "a b c") ∧
    computeWER "a b c d" "a b c" = 1/4 ∧
    computeWER "a b c" "a b c d" = 1/3 := by
  refine ⟨rfl, ?_, ?_⟩
  · have h1 : levenshteinDistance (fields "a b c d".toList) (fields "a b c".toList) = 1 := by
      decide
    have h2 : (fields "a b c d".toList).length = 4 := by decide
    simp only [computeWER, h1, h2]
    norm_num
  · have h1 : levenshteinDistance (fields "a b c".toList) (fields "a b c d".toList) = 1 := by
      decide
    have h2 : (fields "a b c".toList).length = 3 := by decide
    simp only [computeWER, h1, h2]
    norm_num

/-- Claim C9 fails on the code: the two legacy decode tiers agree on the
transcription channel, but on the summary channel the unquoted tier (2)
builds `{job}/{job}_corrected.txt` as the summary key while the plain
tier (3) builds `{job}/{job}_summary.txt`, so for job id `"job1"` the two
payloads differ. -/
theorem c9_bug :
    (∀ job : String,
      transcriptionLegacyPayloadUnquoted job = transcriptionLegacyPayloadPlain job) ∧
    summaryLegacyPayloadUnquoted "job1" ≠ summaryLegacyPayloadPlain "job1" ∧
    (summaryLegacyPayloadUnquoted "job1").summaryFile = "job1/job1_corrected.txt" ∧
    (summaryLegacyPayloadPlain "job1").summaryFile = "job1/job1_summary.txt" := by
  refine ⟨fun job => rfl, by decide, by decide, by decide⟩

/-- Claim C10: with `maxAttempts = 3`, if the underlying get fails on
attempts 1 and 2, then (a) a success on attempt 3 returns the fetched
bytes with no error, having slept exactly after attempts 1 and 2, and
(b) a failure on attempt 3 returns the wrapping error that carries the
last attempt's underlying error, again having slept only between
consecutive attempts. -/
theorem c10_retry (attemptOutcome : Nat → S3AttemptOutcome) (e1 e2 : String)
    (h1 : s3AttemptError (attemptOutcome 1) = some e1)
    (h2 : s3AttemptError (attemptOutcome 2) = some e2) :
    (∀ d, attemptOutcome 3 = S3AttemptOutcome.success d →
      downloadS3Object attemptOutcome 3 = (Except.ok d, [1, 2])) ∧
    (∀ e3, s3AttemptError (attemptOutcome 3) = some e3 →
      downloadS3Object attemptOutcome 3 = (Except.error ⟨3, some e3⟩, [1, 2])) := by
  constructor
  · intro d hd
    cases hg1 : attemptOutcome 1 <;> rw [hg1] at h1 <;>
      simp only [s3AttemptError, Option.some.injEq, reduceCtorEq] at h1 <;>
      cases hg2 : attemptOutcome 2 <;> rw [hg2] at h2 <;>
        simp only [s3AttemptError, Option.some.injEq, reduceCtorEq] at h2 <;>
        simp [downloadS3Object, downloadS3ObjectAux, hg1, hg2, hd]
  · intro e3 h3
    cases hg1 : attemptOutcome 1 <;> rw [hg1] at h1 <;>
      simp only [s3AttemptError, Option.some.injEq, reduceCtorEq] at h1 <;>
      cases hg2 : attemptOutcome 2 <;> rw [hg2] at h2 <;>
        simp only [s3AttemptError, Option.some.injEq, reduceCtorEq] at h2 <;>
        cases hg3 : attemptOutcome 3 <;> rw [hg3] at h3 <;>
          simp only [s3AttemptError, Option.some.injEq, reduceCtorEq] at h3 <;>
          subst h3 <;>
          simp [downloadS3Object, downloadS3ObjectAux, hg1, hg2, hg3]

/-- Witness for claim C10 at the concrete attempt schedules
`sampleAttemptsRecover` (fail, fail, succeed) and `sampleAttemptsAllFail`
(three failures). -/
theorem c10_witness :
    s3AttemptError (sampleAttemptsRecover 1) = some "e1" ∧
    s3AttemptError (sampleAttemptsRecover 2) = some "e2" ∧
    downloadS3Object sampleAttemptsRecover 3 = (Except.ok "payload", [1, 2]) ∧
    s3AttemptError (sampleAttemptsAllFail 1) = some "e1" ∧
    s3AttemptError (sampleAttemptsAllFail 2) = some "e2" ∧
    downloadS3Object sampleAttemptsAllFail 3 = (Except.error ⟨3, some "e3"⟩, [1, 2]) :=
  ⟨by decide, by decide,
    (c10_retry sampleAttemptsRecover "e1" "e2" (by decide) (by decide)).1 "payload" (by decide),
    by decide, by decide,
    (c10_retry sampleAttemptsAllFail "e1" "e2" (by decide) (by decide)).2 "e3" (by decide)⟩

/-! ### Correction ingestion: loop lemmas -/

theorem insertExplanationRows_noFail (eventId : Nat) :
    ∀ (xs : List CorrectionExplanationInput) (k : Nat) (db : DBState),
      insertExplanationRows noDbFailure eventId xs k db =
        Except.ok { db with explanations :=
          db.explanations ++ xs.map (fun e => ⟨eventId, e.explanation, e.explanationVersion⟩) } := by
  intro xs
  induction xs with
  | nil => intro k db; simp [insertExplanationRows]
  | cons e rest ih =>
    intro k db
    simp only [insertExplanationRows, noDbFailure, Bool.false_eq_true, if_false]
    rw [ih]
    simp [List.append_assoc]

theorem insertExplanationRows_error (fails : DbStep → Bool) (eventId : Nat) :
    ∀ (xs : List CorrectionExplanationInput) (k : Nat) (db : DBState) (s : DbStep),
      insertExplanationRows fails eventId xs k db = Except.error s →
      ∃ m, s = DbStep.insertExpl m := by
  intro xs
  induction xs with
  | nil => intro k db s hs; simp [insertExplanationRows] at hs
  | cons e rest ih =>
    intro k db s hs
    simp only [insertExplanationRows] at hs
    by_cases hf : fails (DbStep.insertExpl k) = true
    · rw [if_pos hf] at hs
      exact ⟨k, (Except.error.injEq _ _).mp hs.symm⟩
    · rw [if_neg hf] at hs
      exact ih (k + 1) _ s hs

theorem insertWordRows_spec (fails : DbStep → Bool) (eventId : Nat) :
    ∀ (ws : List WordCorrectionInput) (k : Nat) (db : DBState) (c : Counters),
      (((insertWordRows fails eventId ws k db c).2).ingestTotal = c.ingestTotal ∧
       ((insertWordRows fails eventId ws k db c).2).dedupEvents = c.dedupEvents ∧
       c.dedupWords ≤ ((insertWordRows fails eventId ws k db c).2).dedupWords) ∧
      (∀ s, (insertWordRows fails eventId ws k db c).1 = Except.error s →
        (∃ m, s = DbStep.insertWord m) ∧
        ((insertWordRows fails eventId ws k db c).2).failures = c.failures + 1) ∧
      (∀ db', (insertWordRows fails eventId ws k db c).1 = Except.ok db' →
        ((insertWordRows fails eventId ws k db c).2).failures = c.failures ∧
        db'.events = db.events ∧ db'.explanations = db.explanations ∧
        db'.sentences = db.sentences ∧ db'.nextId = db.nextId ∧
        (∀ r, r ∈ db.words → r ∈ db'.words) ∧
        (∀ w, w ∈ ws → db'.words.any (wordPred eventId w) = true)) := by
  intro ws
  induction ws with
  | nil =>
    intro k db c
    refine ⟨⟨rfl, rfl, le_rfl⟩, ?_, ?_⟩
    · intro s hs; simp [insertWordRows] at hs
    · intro db' hdb'
      simp only [insertWordRows, Except.ok.injEq] at hdb'
      subst hdb'
      exact ⟨rfl, rfl, rfl, rfl, rfl, fun r hr => hr,
        fun w hw => absurd hw (List.not_mem_nil w)⟩
  | cons w rest ih =>
    intro k db c
    by_cases hf : fails (DbStep.insertWord k) = true
    · have key : insertWordRows fails eventId (w :: rest) k db c =
          (Except.error (DbStep.insertWord k), { c with failures := c.failures + 1 }) := by
        simp only [insertWordRows, if_pos hf]
      rw [key]
      refine ⟨⟨rfl, rfl, le_rfl⟩, ?_, ?_⟩
      · intro s hs
        exact ⟨⟨k, ((Except.error.injEq _ _).mp hs).symm⟩, rfl⟩
      · intro db' hdb'; simp at hdb'
    · by_cases hw : db.words.any (wordPred eventId w) = true
      · have key : insertWordRows fails eventId (w :: rest) k db c =
            insertWordRows fails eventId rest (k + 1) db
              { c with dedupWords := c.dedupWords + 1 } := by
          simp only [insertWordRows, if_neg hf, if_pos hw]
        obtain ⟨⟨hIT, hDE, hDW⟩, herr, hok⟩ := ih (k + 1) db
          { c with dedupWords := c.dedupWords + 1 }
        rw [key]
        refine ⟨⟨hIT, hDE, Nat.le_trans (Nat.le_succ c.dedupWords) hDW⟩, ?_, ?_⟩
        · intro s hs
          exact ⟨(herr s hs).1, (herr s hs).2⟩
        · intro db' hdb'
          obtain ⟨hfl, hev, hex, hse, hni, hmono, hall⟩ := hok db' hdb'
          refine ⟨hfl, hev, hex, hse, hni, hmono, ?_⟩
          intro w' hw'
          rcases List.mem_cons.mp hw' with hw1 | hw2
          · subst hw1
            obtain ⟨r, hr, hpr⟩ := List.any_eq_true.mp hw
            exact List.any_eq_true.mpr ⟨r, hmono r hr, hpr⟩
          · exact hall w' hw2
      · have key : insertWordRows fails eventId (w :: rest) k db c =
            insertWordRows fails eventId rest (k + 1)
              { db with words :=
                  db.words ++ [⟨eventId, w.before, w.after, w.position, w.confidence⟩] } c := by
          simp only [insertWordRows, if_neg hf, if_neg hw]
        obtain ⟨⟨hIT, hDE, hDW⟩, herr, hok⟩ := ih (k + 1)
          { db with words :=
              db.words ++ [⟨eventId, w.before, w.after, w.position, w.confidence⟩] } c
        rw [key]
        refine ⟨⟨hIT, hDE, hDW⟩, herr, ?_⟩
        intro db' hdb'
        obtain ⟨hfl, hev, hex, hse, hni, hmono, hall⟩ := hok db' hdb'
        refine ⟨hfl, hev, hex, hse, hni, ?_, ?_⟩
        · intro r hr
          exact hmono r (List.mem_append_left _ hr)
        · intro w' hw'
          rcases List.mem_cons.mp hw' with hw1 | hw2
          · subst hw1
            refine List.any_eq_true.mpr
              ⟨⟨eventId, w'.before, w'.after, w'.position, w'.confidence⟩,
               hmono _ (List.mem_append_right _ (List.mem_singleton.mpr rfl)), ?_⟩
            simp [wordPred]
          · exact hall w' hw2

theorem insertWordRows_noFail_ok (eventId : Nat) :
    ∀ (ws : List WordCorrectionInput) (k : Nat) (db : DBState) (c : Counters),
      ∃ db' c', insertWordRows noDbFailure eventId ws k db c = (Except.ok db', c') := by
  intro ws
  induction ws with
  | nil => intro k db c; exact ⟨db, c, rfl⟩
  | cons w rest ih =>
    intro k db c
    by_cases hw : db.words.any (wordPred eventId w) = true
    · obtain ⟨db', c', h⟩ := ih (k + 1) db { c with dedupWords := c.dedupWords + 1 }
      exact ⟨db', c', by simp only [insertWordRows, noDbFailure, Bool.false_eq_true,
        if_false, if_pos hw]; exact h⟩
    · obtain ⟨db', c', h⟩ := ih (k + 1)
        { db with words :=
            db.words ++ [⟨eventId, w.before, w.after, w.position, w.confidence⟩] } c
      exact ⟨db', c', by simp only [insertWordRows, noDbFailure, Bool.false_eq_true,
        if_false, if_neg hw]; exact h⟩

theorem insertWordRows_allPresent (eventId : Nat) :
    ∀ (ws : List WordCorrectionInput) (k : Nat) (db : DBState) (c : Counters),
      (∀ w ∈ ws, db.words.any (wordPred eventId w) = true) →
      insertWordRows noDbFailure eventId ws k db c =
        (Except.ok db, { c with dedupWords := c.dedupWords + ws.length }) := by
  intro ws
  induction ws with
  | nil => intro k db c _; simp [insertWordRows]
  | cons w rest ih =>
    intro k db c hall
    have hw : db.words.any (wordPred eventId w) = true :=
      hall w (List.mem_cons_self w rest)
    simp only [insertWordRows, noDbFailure, Bool.false_eq_true, if_false, if_pos hw]
    rw [ih (k + 1) db _ (fun w' hw' => hall w' (List.mem_cons_of_mem w hw'))]
    simp [Nat.add_comm, Nat.add_assoc, Nat.add_left_comm]

theorem insertSentenceRows_noFail (eventId : Nat) :
    ∀ (ss : List SentenceMovementInput) (k : Nat) (db : DBState) (c : Counters),
      insertSentenceRows noDbFailure eventId ss k db c =
        (Except.ok { db with sentences :=
          db.sentences ++ ss.map (fun s => ⟨eventId, s.originalLocation, s.newLocation, s.transformation⟩) },
         c) := by
  intro ss
  induction ss with
  | nil => intro k db c; simp [insertSentenceRows]
  | cons s rest ih =>
    intro k db c
    simp only [insertSentenceRows, noDbFailure, Bool.false_eq_true, if_false]
    rw [ih]
    simp [List.append_assoc]

theorem insertSentenceRows_spec (fails : DbStep → Bool) (eventId : Nat) :
    ∀ (ss : List SentenceMovementInput) (k : Nat) (db : DBState) (c : Counters),
      (((insertSentenceRows fails eventId ss k db c).2).ingestTotal = c.ingestTotal ∧
       ((insertSentenceRows fails eventId ss k db c).2).dedupEvents = c.dedupEvents ∧
       ((insertSentenceRows fails eventId ss k db c).2).dedupWords = c.dedupWords) ∧
      (∀ s, (insertSentenceRows fails eventId ss k db c).1 = Except.error s →
        (∃ m, s = DbStep.insertSent m) ∧
        ((insertSentenceRows fails eventId ss k db c).2).failures = c.failures + 1) ∧
      (∀ db', (insertSentenceRows fails eventId ss k db c).1 = Except.ok db' →
        ((insertSentenceRows fails eventId ss k db c).2).failures = c.failures ∧
        db'.events = db.events ∧ db'.explanations = db.explanations ∧
        db'.words = db.words ∧ db'.nextId = db.nextId) := by
  intro ss
  induction ss with
  | nil =>
    intro k db c
    refine ⟨⟨rfl, rfl, rfl⟩, ?_, ?_⟩
    · intro s hs; simp [insertSentenceRows] at hs
    · intro db' hdb'
      simp only [insertSentenceRows, Except.ok.injEq] at hdb'
      subst hdb'
      exact ⟨rfl, rfl, rfl, rfl, rfl⟩
  | cons s rest ih =>
    intro k db c
    by_cases hf : fails (DbStep.insertSent k) = true
    · have key : insertSentenceRows fails eventId (s :: rest) k db c =
          (Except.error (DbStep.insertSent k), { c with failures := c.failures + 1 }) := by
        simp only [insertSentenceRows, if_pos hf]
      rw [key]
      refine ⟨⟨rfl, rfl, rfl⟩, ?_, ?_⟩
      · intro s' hs'
        exact ⟨⟨k, ((Except.error.injEq _ _).mp hs').symm⟩, rfl⟩
      · intro db' hdb'; simp at hdb'
    · have key : insertSentenceRows fails eventId (s :: rest) k db c =
          insertSentenceRows fails eventId rest (k + 1)
            { db with sentences :=
                db.sentences ++ [⟨eventId, s.originalLocation, s.newLocation, s.transformation⟩] } c := by
        simp only [insertSentenceRows, if_neg hf]
      obtain ⟨⟨hIT, hDE, hDW⟩, herr, hok⟩ := ih (k + 1)
        { db with sentences :=
            db.sentences ++ [⟨eventId, s.originalLocation, s.newLocation, s.transformation⟩] } c
      rw [key]
      refine ⟨⟨hIT, hDE, hDW⟩, herr, ?_⟩
      intro db' hdb'
      obtain ⟨hfl, hev, hex, hwo, hni⟩ := hok db' hdb'
      exact ⟨hfl, hev, hex, hwo, hni⟩

theorem ingestChildRows_spec (fails : DbStep → Bool) (req : CorrectionEventRequest)
    (db txDb : DBState) (eventId : Nat) (c1 : Counters) :
    ((ingestChildRows fails req db txDb eventId c1).2.2).ingestTotal = c1.ingestTotal ∧
    ((ingestChildRows fails req db txDb eventId c1).2.2).dedupEvents = c1.dedupEvents ∧
    c1.dedupWords ≤ ((ingestChildRows fails req db txDb eventId c1).2.2).dedupWords ∧
    ((ingestChildRows fails req db txDb eventId c1).2.2).failures =
      c1.failures + (match (ingestChildRows fails req db txDb eventId c1).1 with
        | Except.error (DbStep.insertWord _) => 1
        | Except.error (DbStep.insertSent _) => 1
        | _ => 0) ∧
    (∀ s, (ingestChildRows fails req db txDb eventId c1).1 = Except.error s →
      (ingestChildRows fails req db txDb eventId c1).2.1 = db ∧
      s ≠ DbStep.beginTx ∧ s ≠ DbStep.insertEvent ∧ s ≠ DbStep.selectId) := by
  unfold ingestChildRows
  cases hexp : insertExplanationRows fails eventId req.explanations 0 txDb with
  | error s =>
    obtain ⟨m, hm⟩ := insertExplanationRows_error fails eventId _ _ _ _ hexp
    subst hm
    refine ⟨rfl, rfl, le_rfl, by simp, ?_⟩
    intro s' hs'
    simp only [Except.error.injEq] at hs'
    subst hs'
    exact ⟨rfl, by simp, by simp, by simp⟩
  | ok txDb2 =>
    dsimp only
    obtain ⟨⟨wIT, wDE, wDW⟩, werr, wok⟩ :=
      insertWordRows_spec fails eventId req.words 0 txDb2 c1
    obtain ⟨wres, c2, hword⟩ :
        ∃ r c2, insertWordRows fails eventId req.words 0 txDb2 c1 = (r, c2) :=
      ⟨_, _, rfl⟩
    rw [hword]
    simp only [hword] at wIT wDE wDW werr wok
    cases wres with
    | error s =>
      obtain ⟨⟨m, hm⟩, hfl⟩ := werr s rfl
      subst hm
      refine ⟨wIT, wDE, wDW, by simpa using hfl, ?_⟩
      intro s' hs'
      simp only [Except.error.injEq] at hs'
      subst hs'
      exact ⟨rfl, by simp, by simp, by simp⟩
    | ok txDb3 =>
      dsimp only
      obtain ⟨wFL, _, _, _, _, _, _⟩ := wok txDb3 rfl
      obtain ⟨⟨sIT, sDE, sDW⟩, serr, sok⟩ :=
        insertSentenceRows_spec fails eventId req.sentences 0 txDb3 c2
      obtain ⟨sres, c3, hsent⟩ :
          ∃ r c3, insertSentenceRows fails eventId req.sentences 0 txDb3 c2 = (r, c3) :=
        ⟨_, _, rfl⟩
      rw [hsent]
      simp only [hsent] at sIT sDE sDW serr sok
      cases sres with
      | error s =>
        obtain ⟨⟨m, hm⟩, hfl⟩ := serr s rfl
        subst hm
        refine ⟨by rw [sIT, wIT], by rw [sDE, wDE], by rw [sDW]; exact wDW, ?_, ?_⟩
        · simp [hfl, wFL]
        · intro s' hs'
          simp only [Except.error.injEq] at hs'
          subst hs'
          exact ⟨rfl, by simp, by simp, by simp⟩
      | ok txDb4 =>
        dsimp only
        obtain ⟨sFL, _, _, _, _⟩ := sok txDb4 rfl
        by_cases hc : fails DbStep.commitTx = true
        · rw [if_pos hc]
          refine ⟨by rw [sIT, wIT], by rw [sDE, wDE], by rw [sDW]; exact wDW, ?_, ?_⟩
          · simp [sFL, wFL]
          · intro s' hs'
            simp only [Except.error.injEq] at hs'
            subst hs'
            exact ⟨rfl, by simp, by simp, by simp⟩
        · rw [if_neg hc]
          refine ⟨by rw [sIT, wIT], by rw [sDE, wDE], by rw [sDW]; exact wDW, ?_, ?_⟩
          · simp [sFL, wFL]
          · intro s' hs'
            simp at hs'

theorem ingest_failures_from_child (fails : DbStep → Bool) (req : CorrectionEventRequest)
    (db txDb : DBState) (eventId : Nat) (c c1 : Counters)
    (hc : c1.failures = c.failures) :
    ((ingestChildRows fails req db txDb eventId c1).2.2).failures =
      c.failures + (match (ingestChildRows fails req db txDb eventId c1).1 with
        | Except.error DbStep.insertEvent => 1
        | Except.error (DbStep.insertWord _) => 1
        | Except.error (DbStep.insertSent _) => 1
        | _ => 0) := by
  obtain ⟨_, _, _, gFL, gERR⟩ := ingestChildRows_spec fails req db txDb eventId c1
  rw [gFL, hc]
  congr 1
  cases hres : (ingestChildRows fails req db txDb eventId c1).1 with
  | ok v => rfl
  | error s =>
    cases s with
    | insertEvent => exact absurd rfl (gERR _ hres).2.2.1
    | beginTx => rfl
    | selectId => rfl
    | insertExpl k => rfl
    | insertWord k => rfl
    | insertSent k => rfl
    | commitTx => rfl

/-- Claim C7 as amended: the failures-total counter is incremented exactly
when the event-insert, a word-row insert, or a sentence-row insert returns
a hard error; failures of begin-transaction, event-id resolution,
explanation inserts, and commit do not touch it, and neither does any
dedup no-op or a fully successful call. -/
theorem c7_amended (fails : DbStep → Bool) (req : CorrectionEventRequest)
    (db : DBState) (c : Counters) :
    ((ingestCorrectionEvent fails req db c).2.2).failures =
      c.failures + (match (ingestCorrectionEvent fails req db c).1 with
        | Except.error DbStep.insertEvent => 1
        | Except.error (DbStep.insertWord _) => 1
        | Except.error (DbStep.insertSent _) => 1
        | _ => 0) := by
  by_cases hb : fails DbStep.beginTx = true
  · simp [ingestCorrectionEvent, hb]
  · by_cases he : fails DbStep.insertEvent = true
    · simp [ingestCorrectionEvent, hb, he]
    · by_cases hit : db.events.any (eventPred req.promptId) = true
      · by_cases hsel : fails DbStep.selectId = true
        · simp [ingestCorrectionEvent, hb, he, hit, hsel]
        · simp only [ingestCorrectionEvent, hb, he, hit, hsel]
          simp only [Bool.false_eq_true, if_false, if_true]
          split
          · simp
          · exact ingest_failures_from_child fails req db _ _ c _ rfl
      · by_cases hsel : fails DbStep.selectId = true
        · simp [ingestCorrectionEvent, hb, he, hit, hsel]
        · simp only [ingestCorrectionEvent, hb, he, hit, hsel]
          simp only [Bool.false_eq_true, if_false, if_true, eq_self_iff_true]
          split
          · simp
          · exact ingest_failures_from_child fails req db _ _ c _ rfl

/-- Counterexample to claim C7: a call in which `BeginTx` itself fails
ends in a hard error, yet the failures-total counter is not incremented
(it stays at its initial value 0). -/
theorem c7_counterexample :
    (ingestCorrectionEvent failsBeginTxOnly sampleRequest emptyDB zeroCounters).1 =
      Except.error DbStep.beginTx ∧
    ((ingestCorrectionEvent failsBeginTxOnly sampleRequest emptyDB zeroCounters).2.2).failures =
      zeroCounters.failures :=
  ⟨rfl, rfl⟩

theorem c8_from_child (fails : DbStep → Bool) (req : CorrectionEventRequest)
    (db txDb : DBState) (eventId : Nat) (c c1 : Counters) (s : DbStep)
    (herr : (ingestChildRows fails req db txDb eventId c1).1 = Except.error s)
    (hsum : c1.ingestTotal + c1.dedupEvents = c.ingestTotal + c.dedupEvents + 1)
    (hdw : c.dedupWords ≤ c1.dedupWords) :
    (ingestChildRows fails req db txDb eventId c1).2.1 = db ∧
    ((ingestChildRows fails req db txDb eventId c1).2.2).ingestTotal +
      ((ingestChildRows fails req db txDb eventId c1).2.2).dedupEvents =
      c.ingestTotal + c.dedupEvents + 1 ∧
    c.dedupWords ≤ ((ingestChildRows fails req db txDb eventId c1).2.2).dedupWords := by
  obtain ⟨gIT, gDE, gDW, _, gERR⟩ := ingestChildRows_spec fails req db txDb eventId c1
  exact ⟨(gERR s herr).1, by rw [gIT, gDE]; exact hsum, le_trans hdw gDW⟩

/-- Claim C8: when `IngestCorrectionEvent` fails after its event-insert
step, the transaction is rolled back — the caller-visible store is
unchanged — yet the event-level counter increment performed during the
call (ingest-total on a fresh insert, dedup-events on a no-op) persists,
and dedup-words never decreases, so the counters can exceed the number of
persisted events. -/
theorem c8_rollback_persists_counters (fails : DbStep → Bool)
    (req : CorrectionEventRequest) (db : DBState) (c : Counters) (s : DbStep)
    (herr : (ingestCorrectionEvent fails req db c).1 = Except.error s)
    (hs1 : s ≠ DbStep.beginTx) (hs2 : s ≠ DbStep.insertEvent) :
    (ingestCorrectionEvent fails req db c).2.1 = db ∧
    ((ingestCorrectionEvent fails req db c).2.2).ingestTotal +
      ((ingestCorrectionEvent fails req db c).2.2).dedupEvents =
      c.ingestTotal + c.dedupEvents + 1 ∧
    c.dedupWords ≤ ((ingestCorrectionEvent fails req db c).2.2).dedupWords := by
  by_cases hb : fails DbStep.beginTx = true
  · exfalso
    have hres : (ingestCorrectionEvent fails req db c).1 = Except.error DbStep.beginTx := by
      simp [ingestCorrectionEvent, hb]
    rw [hres] at herr
    simp only [Except.error.injEq] at herr
    exact hs1 herr.symm
  · by_cases he : fails DbStep.insertEvent = true
    · exfalso
      have hres : (ingestCorrectionEvent fails req db c).1 = Except.error DbStep.insertEvent := by
        simp [ingestCorrectionEvent, hb, he]
      rw [hres] at herr
      simp only [Except.error.injEq] at herr
      exact hs2 herr.symm
    · by_cases hit : db.events.any (eventPred req.promptId) = true
      · by_cases hsel : fails DbStep.selectId = true
        · refine ⟨by simp [ingestCorrectionEvent, hb, he, hit, hsel], ?_, ?_⟩
          · simp [ingestCorrectionEvent, hb, he, hit, hsel]
            omega
          · simp [ingestCorrectionEvent, hb, he, hit, hsel]
        · simp only [ingestCorrectionEvent, hb, he, hit, hsel] at herr ⊢
          simp only [Bool.false_eq_true, if_false, if_true] at herr ⊢
          split at herr
          · exact ⟨rfl,
              (by omega : c.ingestTotal + (c.dedupEvents + 1) =
                c.ingestTotal + c.dedupEvents + 1), le_rfl⟩
          · rename_i row heq
            exact c8_from_child fails req db _ _ c _ s herr
              (by omega : c.ingestTotal + (c.dedupEvents + 1) =
                c.ingestTotal + c.dedupEvents + 1) le_rfl
      · by_cases hsel : fails DbStep.selectId = true
        · refine ⟨by simp [ingestCorrectionEvent, hb, he, hit, hsel], ?_, ?_⟩
          · simp [ingestCorrectionEvent, hb, he, hit, hsel]
            omega
          · simp [ingestCorrectionEvent, hb, he, hit, hsel]
        · simp only [ingestCorrectionEvent, hb, he, hit, hsel] at herr ⊢
          simp only [Bool.false_eq_true, if_false, if_true] at herr ⊢
          split at herr
          · exact ⟨rfl,
              (by omega : c.ingestTotal + 1 + c.dedupEvents =
                c.ingestTotal + c.dedupEvents + 1), le_rfl⟩
          · rename_i row heq
            exact c8_from_child fails req db _ _ c _ s herr
              (by omega : c.ingestTotal + 1 + c.dedupEvents =
                c.ingestTotal + c.dedupEvents + 1) le_rfl

theorem ingestChildRows_noFail (req : CorrectionEventRequest) (db txDb : DBState)
    (eventId : Nat) (c1 : Counters) :
    ∃ (db3 : DBState) (c3 : Counters), ingestChildRows noDbFailure req db txDb eventId c1 =
      (Except.ok eventId,
       { db3 with sentences :=
          db3.sentences ++ req.sentences.map (fun s => ⟨eventId, s.originalLocation, s.newLocation, s.transformation⟩) },
       c3) ∧
      db3.events = txDb.events ∧
      db3.explanations = txDb.explanations ++ req.explanations.map
        (fun e => ⟨eventId, e.explanation, e.explanationVersion⟩) ∧
      db3.sentences = txDb.sentences ∧
      (∀ w, w ∈ req.words → db3.words.any (wordPred eventId w) = true) ∧
      ((∀ w ∈ req.words, txDb.words.any (wordPred eventId w) = true) →
        db3.words = txDb.words) := by
  obtain ⟨db3, c3, hword⟩ := insertWordRows_noFail_ok eventId req.words 0
    { txDb with explanations :=
        txDb.explanations ++ req.explanations.map (fun e => ⟨eventId, e.explanation, e.explanationVersion⟩) } c1
  obtain ⟨_, _, wok⟩ := insertWordRows_spec noDbFailure eventId req.words 0
    { txDb with explanations :=
        txDb.explanations ++ req.explanations.map (fun e => ⟨eventId, e.explanation, e.explanationVersion⟩) } c1
  obtain ⟨wFL, wEV, wEX, wSE, wNI, wMONO, wALL⟩ := wok db3 (by rw [hword])
  refine ⟨db3, c3, ?_, wEV, wEX, wSE, wALL, ?_⟩
  · unfold ingestChildRows
    rw [insertExplanationRows_noFail eventId req.explanations 0 txDb]
    dsimp only
    rw [hword]
    dsimp only
    rw [insertSentenceRows_noFail eventId req.sentences 0 db3 c3]
    dsimp only
    simp [noDbFailure]
  · intro hpre
    have hall := insertWordRows_allPresent eventId req.words 0
      { txDb with explanations :=
          txDb.explanations ++ req.explanations.map (fun e => ⟨eventId, e.explanation, e.explanationVersion⟩) } c1 hpre
    rw [hword] at hall
    have : db3 = { txDb with explanations :=
        txDb.explanations ++ req.explanations.map (fun e => ⟨eventId, e.explanation, e.explanationVersion⟩) } := by
      have h1 := congrArg Prod.fst hall
      simpa using h1
    rw [this]

theorem ingest_noFail_run (req : CorrectionEventRequest) (db : DBState) (c : Counters) :
    ∃ (row : EventRow) (db' : DBState) (c' : Counters),
      ingestCorrectionEvent noDbFailure req db c = (Except.ok row.id, db', c') ∧
      db'.events.find? (eventPred req.promptId) = some row ∧
      db'.events.any (eventPred req.promptId) = true ∧
      (db.events.any (eventPred req.promptId) = true →
        db'.events = db.events ∧
        db.events.find? (eventPred req.promptId) = some row) ∧
      db'.explanations = db.explanations ++
        req.explanations.map (fun e => ⟨row.id, e.explanation, e.explanationVersion⟩) ∧
      db'.sentences = db.sentences ++
        req.sentences.map (fun s => ⟨row.id, s.originalLocation, s.newLocation, s.transformation⟩) ∧
      (∀ w, w ∈ req.words → db'.words.any (wordPred row.id w) = true) ∧
      ((∀ w ∈ req.words, db.words.any (wordPred row.id w) = true) → db'.words = db.words) := by
  by_cases hit : db.events.any (eventPred req.promptId) = true
  · obtain ⟨row, hrow⟩ : ∃ row, db.events.find? (eventPred req.promptId) = some row := by
      have h1 : (db.events.find? (eventPred req.promptId)).isSome := by
        rw [List.find?_isSome]
        exact List.any_eq_true.mp hit
      exact Option.isSome_iff_exists.mp h1
    obtain ⟨db3, c3, hchild, hEV, hEX, hSE, hALL, hCOND⟩ :=
      ingestChildRows_noFail req db db row.id { c with dedupEvents := c.dedupEvents + 1 }
    have main : ingestCorrectionEvent noDbFailure req db c =
        ingestChildRows noDbFailure req db db row.id
          { c with dedupEvents := c.dedupEvents + 1 } := by
      simp [ingestCorrectionEvent, noDbFailure, hit, hrow]
    rw [hchild] at main
    refine ⟨row, _, c3, main, ?_, ?_, ?_, ?_, ?_, ?_, ?_⟩
    · show db3.events.find? (eventPred req.promptId) = some row
      rw [hEV]
      exact hrow
    · show db3.events.any (eventPred req.promptId) = true
      rw [hEV]
      exact hit
    · intro _
      exact ⟨hEV, hrow⟩
    · exact hEX
    · show db3.sentences ++ _ = db.sentences ++ _
      rw [hSE]
    · intro w hw
      exact hALL w hw
    · intro hpre
      show db3.words = db.words
      exact hCOND hpre
  · have hanyf : db.events.any (eventPred req.promptId) = false := by
      cases h : db.events.any (eventPred req.promptId) with
      | false => rfl
      | true => exact absurd h hit
    have hnone : db.events.find? (eventPred req.promptId) = none := by
      rw [List.find?_eq_none]
      intro x hx hpx
      exact (List.any_eq_false.mp hanyf) x hx hpx
    have hfind : (db.events ++
        [(⟨db.nextId, req.jobId, req.modelId, req.promptId, req.source, req.version⟩ : EventRow)]).find?
          (eventPred req.promptId) =
        some ⟨db.nextId, req.jobId, req.modelId, req.promptId, req.source, req.version⟩ := by
      rw [List.find?_append, hnone]
      simp [List.find?, eventPred]
    obtain ⟨db3, c3, hchild, hEV, hEX, hSE, hALL, hCOND⟩ :=
      ingestChildRows_noFail req db
        { db with events := db.events ++ [⟨db.nextId, req.jobId, req.modelId, req.promptId, req.source, req.version⟩], nextId := db.nextId + 1 }
        db.nextId { c with ingestTotal := c.ingestTotal + 1 }
    have main : ingestCorrectionEvent noDbFailure req db c =
        ingestChildRows noDbFailure req db
          { db with events := db.events ++ [⟨db.nextId, req.jobId, req.modelId, req.promptId, req.source, req.version⟩], nextId := db.nextId + 1 }
          db.nextId { c with ingestTotal := c.ingestTotal + 1 } := by
      simp [ingestCorrectionEvent, noDbFailure, hit, hfind]
    rw [hchild] at main
    refine ⟨⟨db.nextId, req.jobId, req.modelId, req.promptId, req.source, req.version⟩, _, c3,
      main, ?_, ?_, ?_, ?_, ?_, ?_, ?_⟩
    · show db3.events.find? (eventPred req.promptId) = some _
      rw [hEV]
      exact hfind
    · show db3.events.any (eventPred req.promptId) = true
      rw [hEV]
      refine List.any_eq_true.mpr
        ⟨⟨db.nextId, req.jobId, req.modelId, req.promptId, req.source, req.version⟩, ?_, ?_⟩
      · exact List.mem_append_right _ (List.mem_singleton.mpr rfl)
      · simp [eventPred]
    · intro hcontra
      exact absurd hcontra hit
    · exact hEX
    · show db3.sentences ++ _ = db.sentences ++ _
      rw [hSE]
    · intro w hw
      exact hALL w hw
    · intro hpre
      show db3.words = db.words
      exact hCOND hpre

/-- Claim C6: ingesting the identical correction-event payload twice with
no database failures returns the same event id both times; the second call
appends its explanation and sentence rows again (row counts grow by the
payload size each call, i.e. they are doubled after the second call),
while every word pair is already stored for that event, so the word table
is unchanged by the second call. -/
theorem c6_ingestion_idempotence (req : CorrectionEventRequest)
    (db0 db1 db2 : DBState) (c0 c1 c2 : Counters) (r1 r2 : Except DbStep Nat)
    (h1 : ingestCorrectionEvent noDbFailure req db0 c0 = (r1, db1, c1))
    (h2 : ingestCorrectionEvent noDbFailure req db1 c1 = (r2, db2, c2)) :
    (∃ eid, r1 = Except.ok eid ∧ r2 = Except.ok eid) ∧
    db1.explanations.length = db0.explanations.length + req.explanations.length ∧
    db2.explanations.length = db1.explanations.length + req.explanations.length ∧
    db1.sentences.length = db0.sentences.length + req.sentences.length ∧
    db2.sentences.length = db1.sentences.length + req.sentences.length ∧
    db2.words = db1.words := by
  obtain ⟨row, db1', c1', hmain, hfind, hany, hhit, hexp, hsen, hens, hcond⟩ :=
    ingest_noFail_run req db0 c0
  rw [h1] at hmain
  obtain ⟨hr1, hdb1, hc1⟩ : r1 = Except.ok row.id ∧ db1 = db1' ∧ c1 = c1' := by
    simpa [Prod.ext_iff] using hmain
  subst hdb1
  subst hr1
  subst hc1
  obtain ⟨row2, db2', c2', hmain2, hfind2, hany2, hhit2, hexp2, hsen2, hens2, hcond2⟩ :=
    ingest_noFail_run req db1 c1
  rw [h2] at hmain2
  obtain ⟨hr2, hdb2, hc2⟩ : r2 = Except.ok row2.id ∧ db2 = db2' ∧ c2 = c2' := by
    simpa [Prod.ext_iff] using hmain2
  subst hdb2
  subst hr2
  subst hc2
  obtain ⟨hev2, hfind1b⟩ := hhit2 hany
  have hrowrow : row2 = row := by
    rw [hfind] at hfind1b
    exact ((Option.some.injEq _ _).mp hfind1b).symm
  subst hrowrow
  refine ⟨⟨row2.id, rfl, rfl⟩, ?_, ?_, ?_, ?_, ?_⟩
  · rw [hexp]; simp
  · rw [hexp2]; simp
  · rw [hsen]; simp
  · rw [hsen2]; simp
  · exact hcond2 (fun w hw => hens w hw)

/-- Witness for claim C6: the double ingestion of `sampleRequest` into the
empty store, with both concrete runs evaluated. -/
theorem c6_witness :
    ingestCorrectionEvent noDbFailure sampleRequest emptyDB zeroCounters =
      (Except.ok 1,
       ⟨[⟨1, "job1", "m1", "p1", "ui", 1⟩], [⟨1, "fixed a typo", 1⟩],
        [⟨1, "teh", "the", some 3, none⟩], [⟨1, "s1", "s2", "moved"⟩], 2⟩,
       ⟨1, 0, 0, 0⟩) ∧
    ingestCorrectionEvent noDbFailure sampleRequest
      ⟨[⟨1, "job1", "m1", "p1", "ui", 1⟩], [⟨1, "fixed a typo", 1⟩],
       [⟨1, "teh", "the", some 3, none⟩], [⟨1, "s1", "s2", "moved"⟩], 2⟩ ⟨1, 0, 0, 0⟩ =
      (Except.ok 1,
       ⟨[⟨1, "job1", "m1", "p1", "ui", 1⟩],
        [⟨1, "fixed a typo", 1⟩, ⟨1, "fixed a typo", 1⟩],
        [⟨1, "teh", "the", some 3, none⟩],
        [⟨1, "s1", "s2", "moved"⟩, ⟨1, "s1", "s2", "moved"⟩], 2⟩,
       ⟨1, 1, 1, 0⟩) ∧
    ((∃ eid, (Except.ok 1 : Except DbStep Nat) = Except.ok eid ∧
        (Except.ok 1 : Except DbStep Nat) = Except.ok eid) ∧
      ([⟨1, "fixed a typo", 1⟩] : List ExplanationRow).length =
        ([] : List ExplanationRow).length + sampleRequest.explanations.length ∧
      ([⟨1, "fixed a typo", 1⟩, ⟨1, "fixed a typo", 1⟩] : List ExplanationRow).length =
        ([⟨1, "fixed a typo", 1⟩] : List ExplanationRow).length +
          sampleRequest.explanations.length ∧
      ([⟨1, "s1", "s2", "moved"⟩] : List SentenceRow).length =
        ([] : List SentenceRow).length + sampleRequest.sentences.length ∧
      ([⟨1, "s1", "s2", "moved"⟩, ⟨1, "s1", "s2", "moved"⟩] : List SentenceRow).length =
        ([⟨1, "s1", "s2", "moved"⟩] : List SentenceRow).length +
          sampleRequest.sentences.length ∧
      ([⟨1, "teh", "the", some 3, none⟩] : List WordRow) =
        [⟨1, "teh", "the", some 3, none⟩]) :=
  ⟨by decide, by decide,
    c6_ingestion_idempotence sampleRequest emptyDB
      ⟨[⟨1, "job1", "m1", "p1", "ui", 1⟩], [⟨1, "fixed a typo", 1⟩],
       [⟨1, "teh", "the", some 3, none⟩], [⟨1, "s1", "s2", "moved"⟩], 2⟩
      ⟨[⟨1, "job1", "m1", "p1", "ui", 1⟩],
       [⟨1, "fixed a typo", 1⟩, ⟨1, "fixed a typo", 1⟩],
       [⟨1, "teh", "the", some 3, none⟩],
       [⟨1, "s1", "s2", "moved"⟩, ⟨1, "s1", "s2", "moved"⟩], 2⟩
      zeroCounters ⟨1, 0, 0, 0⟩ ⟨1, 1, 1, 0⟩ (Except.ok 1) (Except.ok 1)
      (by decide) (by decide)⟩

/-- Witness for claim C8: the commit of `sampleRequest` into the empty
store fails; the store is unchanged while ingest-total is 1. -/
theorem c8_witness :
    (ingestCorrectionEvent failsCommitOnly sampleRequest emptyDB zeroCounters).1 =
      Except.error DbStep.commitTx ∧
    DbStep.commitTx ≠ DbStep.beginTx ∧
    DbStep.commitTx ≠ DbStep.insertEvent ∧
    ((ingestCorrectionEvent failsCommitOnly sampleRequest emptyDB zeroCounters).2.1 = emptyDB ∧
     ((ingestCorrectionEvent failsCommitOnly sampleRequest emptyDB zeroCounters).2.2).ingestTotal +
       ((ingestCorrectionEvent failsCommitOnly sampleRequest emptyDB zeroCounters).2.2).dedupEvents =
       zeroCounters.ingestTotal + zeroCounters.dedupEvents + 1 ∧
     zeroCounters.dedupWords ≤
       ((ingestCorrectionEvent failsCommitOnly sampleRequest emptyDB zeroCounters).2.2).dedupWords) :=
  ⟨by decide, by decide, by decide,
    c8_rollback_persists_counters failsCommitOnly sampleRequest emptyDB zeroCounters
      DbStep.commitTx (by decide) (by decide) (by decide)⟩
